import Mathlib

/-!
Shallow embedding of the chunked HTTP transfer engine of the MP4Download
repository (primary source: `enhanced_chunk_downloader.py`, config defaults
from `config.py`; the older `chunk_downloader.py` duplicates the same
structure).  Machine integers are modelled as `Nat`/`Int`; Python floor
division `//` on non-negative ints is `Nat` division; the float tolerance
`0.95` of the chunk-size validation is modelled by the exact comparison
`20 * downloaded < 19 * expected` (equivalent to `downloaded < expected * 0.95`
over the rationals).  Network and file I/O are modelled by oracles: each HTTP
request's observable outcome is an explicit input.
-/

/-- Download configuration, from `config.py` (`DOWNLOAD_CONFIG`). -/
structure DownloadConfig where
  max_threads : Nat := 8
  chunk_size : Nat := 2 * 1024 * 1024
  max_retries : Nat := 3
  small_file_threshold : Nat := 10 * 1024 * 1024
  enable_chunked_download : Bool := true

/-- The hard cap of 16 chunks hard-coded in `calculate_optimal_chunks`. -/
def hardCapChunks : Nat := 16

/-- `EnhancedChunkDownloader.calculate_optimal_chunks` (enhanced_chunk_downloader.py,
lines 157-169): `1` below the small-file threshold, else
`min(max_threads, max(1, file_size // chunk_size), 16)`. -/
def calculate_optimal_chunks (cfg : DownloadConfig) (file_size : Nat) : Nat :=
  if file_size < cfg.small_file_threshold then 1
  else min cfg.max_threads (min (max 1 (file_size / cfg.chunk_size)) hardCapChunks)

/-- The per-chunk byte ranges computed by the loop in
`EnhancedChunkDownloader.download_video` (lines 405-409; identically
`ChunkDownloader.download_video` lines 283-287):
`chunk_size = file_size // n`, `start = i * chunk_size`,
`end = start + chunk_size - 1`, and for the last index `end = file_size - 1`.
Offsets are `Int` because Python's `end` can be `-1` in degenerate cases. -/
def planDescriptors (file_size n : Nat) : List (Int × Int) :=
  let cs := file_size / n
  (List.range n).map (fun i =>
    (((i * cs : Nat) : Int),
      if i = n - 1 then (file_size : Int) - 1 else ((i * cs : Nat) : Int) + (cs : Int) - 1))

/-- Modelled from the spec: the spec's chunk-count formula
`clamp(min(maxThreads, floor(totalSize / preferredChunkBytes)), 1, hardCapChunks)`
(spec section 4.2), to be compared against `calculate_optimal_chunks`. -/
def specChunkCount (totalSize maxThreads preferredChunkBytes cap : Nat) : Nat :=
  max 1 (min (min maxThreads (totalSize / preferredChunkBytes)) cap)

/-- One attempt's observable behaviour of the HTTP stream in
`EnhancedChunkDownloader.download_chunk`: how many body bytes were received
(and written to the artifact) before the attempt ended, whether the artifact
file was opened (the request may fail before `open`), and the exception that
ended the attempt, if any. -/
structure Attempt where
  streamed : Nat
  opened : Bool
  error : Option String

/-- The shortfall exception message raised at
enhanced_chunk_downloader.py line 201. -/
def shortfallMsg (expected actual : Nat) : String :=
  "chunk incomplete: expected " ++ toString expected ++ ", got " ++ toString actual

/-- The outcome of one attempt after the size validation of
`download_chunk` (lines 199-201): an exception ends the attempt with its
message; otherwise the attempt fails iff `downloaded < expected * 0.95`
(modelled exactly as `20 * downloaded < 19 * expected`), else succeeds. -/
def attemptOutcome (a : Attempt) (expected : Nat) : Option String :=
  match a.error with
  | some e => some e
  | none =>
      if 20 * a.streamed < 19 * expected then some (shortfallMsg expected a.streamed)
      else none

/-- The observable trace of one call to `download_chunk`: the returned
triple `(chunk_id, downloaded, error)`, the byte range used by each HTTP
request in order, the backoff delays slept between attempts, the total amount
added to the shared progress counter, and the artifact file's final size
(`none` if no attempt ever opened it; each attempt that opens it truncates,
`open(..., 'wb')`, so the artifact holds only the bytes of the last attempt
that opened it). -/
structure WorkerRun where
  result : Nat × Nat × Option String
  ranges : List (Nat × Nat)
  waits : List Nat
  counterDelta : Nat
  artifact : Option Nat

/-- `EnhancedChunkDownloader.download_chunk` (lines 171-213) as a trace
function over an oracle giving each attempt's stream behaviour.  Expected
size is `end - start + 1`; on failure with budget left it sleeps
`min(2 ** retry_count, 10)` and recurses with `retry_count + 1`; once
`retry_count` reaches `max_retries` it returns `(chunk_id, 0, str(e))`. -/
def runChunk (oracle : Nat → Attempt) (start endB chunk_id max_retries : Nat) :
    Nat → WorkerRun := fun retry_count =>
  let a := oracle retry_count
  let expected := endB + 1 - start
  match attemptOutcome a expected with
  | none =>
      { result := (chunk_id, a.streamed, none)
        ranges := [(start, endB)]
        waits := []
        counterDelta := a.streamed
        artifact := if a.opened then some a.streamed else none }
  | some e =>
      if retry_count < max_retries then
        let w := min (2 ^ retry_count) 10
        let rest := runChunk oracle start endB chunk_id max_retries (retry_count + 1)
        { result := rest.result
          ranges := (start, endB) :: rest.ranges
          waits := w :: rest.waits
          counterDelta := a.streamed + rest.counterDelta
          artifact := match rest.artifact with
            | some s => some s
            | none => if a.opened then some a.streamed else none }
      else
        { result := (chunk_id, 0, some e)
          ranges := [(start, endB)]
          waits := []
          counterDelta := a.streamed
          artifact := if a.opened then some a.streamed else none }
termination_by retry_count => max_retries - retry_count

/-- The backoff delays `min(2 ** k, 10)` for `n` consecutive failed attempts
starting at retry count `rc` (enhanced_chunk_downloader.py line 208). -/
def backoffSchedule (rc n : Nat) : List Nat :=
  (List.range n).map (fun j => min (2 ^ (rc + j)) 10)

/-- Total bytes streamed by attempts `rc, rc+1, ..., rc+n-1` of an oracle:
the amount `download_chunk` adds to the shared progress counter over those
attempts (`self.total_downloaded += len(data)` on every received increment,
lines 192-193, with no decrement anywhere). -/
def oracleStreamSum (o : Nat → Attempt) (rc n : Nat) : Nat :=
  ((List.range n).map (fun j => (o (rc + j)).streamed)).sum

/-- Concrete oracle: every attempt fails with the same network error before
opening the artifact file. -/
def oracleAllFail : Nat → Attempt := fun _ =>
  { streamed := 0, opened := false, error := some "connection reset" }

/-- Concrete oracle: the first attempt streams 90 of 100 expected bytes (a
shortfall beyond the 5% tolerance), the retry streams all 100. -/
def oracleRetryThenOk : Nat → Attempt := fun k =>
  if k = 0 then { streamed := 90, opened := true, error := none }
  else { streamed := 100, opened := true, error := none }

/-- `EnhancedChunkDownloader.merge_chunks` (lines 268-299; identically
`ChunkDownloader.merge_chunks` lines 196-218) over an abstract artifact
store: chunk `i`'s artifact content, or `none` when the file does not exist.
For each index in `range(num_chunks)` the artifact, if present, is appended
to the output and deleted; a missing artifact only prints a warning.  The
function returns `True` together with the bytes written to the output file.
(The `except` branch that returns `False` fires only on an OS-level I/O
exception, which the pure model does not produce.) -/
def merge_chunks (files : Nat → Option (List Nat)) (num_chunks : Nat) :
    Bool × List Nat :=
  (true,
    (List.range num_chunks).foldl
      (fun acc i =>
        match files i with
        | some data => acc ++ data
        | none => acc)
      [])

/-- What the orchestrator does after all workers finished
(`EnhancedChunkDownloader.download_video` lines 415-437; identically
`ChunkDownloader.download_video` lines 293-314). -/
structure TransferEnd where
  calledMerge : Bool
  calledCleanup : Bool
  success : Bool

/-- The tail of `download_video`: collect the workers' `(chunk_id, downloaded,
error)` results; if any chunk reports an error, clean up the temporary files
and return `False` without merging; otherwise the transfer's success is the
merge step's result. -/
def finishTransfer (results : List (Nat × Nat × Option String)) (mergeOk : Bool) :
    TransferEnd :=
  let failed_chunks := (results.filter (fun r => r.2.2.isSome)).map (fun r => r.1)
  if failed_chunks.isEmpty then
    { calledMerge := true, calledCleanup := false, success := mergeOk }
  else
    { calledMerge := false, calledCleanup := true, success := false }

/-- Observable outcome of one HTTP probing request: either the library raised
an exception (network error/timeout), or a response with a status code, an
optional parsed `Content-Length` value, an optional parsed `Content-Range`
total, and whether an `Accept-Ranges` header is present. -/
inductive HttpOutcome where
  | exn (msg : String)
  | resp (status : Nat) (contentLength : Option Nat) (contentRangeTotal : Option Nat)
      (acceptRanges : Bool)

/-- `EnhancedChunkDownloader.test_range_support` (lines 110-125; identically
`ChunkDownloader.test_range_support` lines 70-89): 206 means supported; 200
means supported iff `accept-ranges` is present; any other status, or an
exception, means unsupported. -/
def test_range_support (o : HttpOutcome) : Bool :=
  match o with
  | .exn _ => false
  | .resp status _ _ acceptRanges =>
      if status = 206 then true
      else if status = 200 then acceptRanges
      else false

/-- `ChunkDownloader.get_file_size` (lines 91-124; identically
`EnhancedChunkDownloader.get_accurate_file_size` lines 127-155): three
requests tried in order (plain HEAD looking at `Content-Length`, a
`bytes=0-1` HEAD looking at `Content-Range`, a `bytes=0-1023` GET looking at
`Content-Range`); the first header found wins; an exception at any step is
caught and yields `0`, as does exhausting all three methods. -/
def get_file_size (o1 o2 o3 : HttpOutcome) : Nat :=
  match o1 with
  | .exn _ => 0
  | .resp _ cl _ _ =>
      match cl with
      | some v => v
      | none =>
          match o2 with
          | .exn _ => 0
          | .resp _ _ cr _ =>
              match cr with
              | some t => t
              | none =>
                  match o3 with
                  | .exn _ => 0
                  | .resp _ _ cr3 _ =>
                      match cr3 with
                      | some t => t
                      | none => 0

/-- The transfer mode chosen by `EnhancedChunkDownloader.download_video`
(lines 352-380): fall back to the sequential single-stream download when
chunked download is disabled, when the server does not support ranges, or
when neither the probe nor the extractor's estimate yields a nonzero size;
otherwise download in `calculate_optimal_chunks` chunks. -/
inductive TransferMode where
  | fallbackStream
  | chunked (numChunks : Nat)
deriving DecidableEq

/-- The mode decision of `download_video`: `probedSize` is what
`get_accurate_file_size` returned, `estimatedSize` the extractor's
`filesize` estimate used when the probe returns `0`. -/
def chooseTransferMode (cfg : DownloadConfig) (rangeSupport : Bool)
    (probedSize estimatedSize : Nat) : TransferMode :=
  if !cfg.enable_chunked_download then .fallbackStream
  else if !rangeSupport then .fallbackStream
  else
    let file_size := if probedSize = 0 then estimatedSize else probedSize
    if file_size = 0 then .fallbackStream
    else .chunked (calculate_optimal_chunks cfg file_size)

/-- Python slice `content[start : end + 1]` for a chunk descriptor whose
offsets may be `Int` (`end` can be `-1` for an empty degenerate chunk; `start`
is always a cast `Nat`). -/
def sliceRange (content : List Nat) (s e : Int) : List Nat :=
  (content.drop s.toNat).take (e + 1 - s).toNat

/-- Splitting a file's byte content into the artifacts a fully successful
chunked download produces: artifact `i` holds exactly the bytes of descriptor
`i` of the plan for `n` chunks. -/
def splitByPlan (content : List Nat) (n : Nat) : List (List Nat) :=
  (planDescriptors content.length n).map (fun d => sliceRange content d.1 d.2)

/-- The full chunk plan of `download_video`: the chunk count from
`calculate_optimal_chunks`, then the byte ranges of the submission loop. -/
def planOf (cfg : DownloadConfig) (ts : Nat) : List (Int × Int) :=
  planDescriptors ts (calculate_optimal_chunks cfg ts)

/-! ## Helper lemmas about the worker model -/

theorem runChunk_ranges_mem (o : Nat → Attempt) (s e cid mr rc : Nat) :
    ∀ p ∈ (runChunk o s e cid mr rc).ranges, p = (s, e) := by
  rw [runChunk]
  simp only []
  split
  · intro p hp
    simpa using hp
  · split
    · intro p hp
      rcases List.mem_cons.mp hp with h | h
      · exact h
      · exact runChunk_ranges_mem o s e cid mr (rc + 1) p h
    · intro p hp
      simpa using hp
termination_by mr - rc
decreasing_by omega

theorem runChunk_len (o : Nat → Attempt) (s e cid mr rc : Nat) :
    1 ≤ (runChunk o s e cid mr rc).ranges.length ∧
      (runChunk o s e cid mr rc).ranges.length ≤ mr - rc + 1 := by
  rw [runChunk]
  simp only []
  split
  · simp
  · split
    · have ih := runChunk_len o s e cid mr (rc + 1)
      simp only [List.length_cons]
      omega
    · simp
termination_by mr - rc
decreasing_by omega

theorem runChunk_waits_len (o : Nat → Attempt) (s e cid mr rc : Nat) :
    (runChunk o s e cid mr rc).waits.length + 1 = (runChunk o s e cid mr rc).ranges.length := by
  rw [runChunk]
  simp only []
  split
  · simp
  · split
    · have ih := runChunk_waits_len o s e cid mr (rc + 1)
      simp only [List.length_cons]
      omega
    · simp
termination_by mr - rc
decreasing_by omega

theorem runChunk_id (o : Nat → Attempt) (s e cid mr rc : Nat) :
    (runChunk o s e cid mr rc).result.1 = cid := by
  rw [runChunk]
  simp only []
  split
  · rfl
  · split
    · exact runChunk_id o s e cid mr (rc + 1)
    · rfl
termination_by mr - rc
decreasing_by omega

theorem runChunk_fail (o : Nat → Attempt) (s e cid mr rc : Nat) (hrc : rc ≤ mr) :
    ∀ msg, (runChunk o s e cid mr rc).result.2.2 = some msg →
      (runChunk o s e cid mr rc).result.2.1 = 0 ∧
      (runChunk o s e cid mr rc).ranges.length = mr - rc + 1 ∧
      attemptOutcome (o mr) (e + 1 - s) = some msg ∧
      (∀ k, rc ≤ k → k ≤ mr → (attemptOutcome (o k) (e + 1 - s)).isSome) := by
  rw [runChunk]
  simp only []
  split
  · intro msg hmsg
    simp at hmsg
  · split
    · intro msg hmsg
      have ih := runChunk_fail o s e cid mr (rc + 1) (by omega) msg hmsg
      refine ⟨ih.1, ?_, ih.2.2.1, ?_⟩
      · simp only [List.length_cons]
        omega
      · intro k hk1 hk2
        rcases Nat.eq_or_lt_of_le hk1 with h | h
        · subst h
          simp_all
        · exact ih.2.2.2 k h hk2
    · intro msg hmsg
      simp only [Prod.mk.injEq] at hmsg
      have hrc' : rc = mr := by omega
      subst hrc'
      refine ⟨rfl, by simp, ?_, ?_⟩
      · simp_all
      · intro k hk1 hk2
        have : k = rc := by omega
        subst this
        simp_all
termination_by mr - rc
decreasing_by omega

theorem backoffSchedule_succ (rc n : Nat) :
    backoffSchedule rc (n + 1) = min (2 ^ rc) 10 :: backoffSchedule (rc + 1) n := by
  unfold backoffSchedule
  rw [List.range_succ_eq_map, List.map_cons, List.map_map]
  rw [List.cons.injEq]
  refine ⟨by simp, ?_⟩
  apply List.map_congr_left
  intro a _
  have h : rc + (a + 1) = rc + 1 + a := by omega
  simp [Function.comp, h]

theorem oracleStreamSum_succ (o : Nat → Attempt) (rc n : Nat) :
    oracleStreamSum o rc (n + 1) = (o rc).streamed + oracleStreamSum o (rc + 1) n := by
  unfold oracleStreamSum
  rw [List.range_succ_eq_map, List.map_cons, List.map_map, List.sum_cons]
  have hmap : ((List.range n).map ((fun j => (o (rc + j)).streamed) ∘ Nat.succ))
      = (List.range n).map (fun j => (o (rc + 1 + j)).streamed) := by
    apply List.map_congr_left
    intro a _
    have h : rc + (a + 1) = rc + 1 + a := by omega
    simp [Function.comp, h]
  rw [hmap]
  simp [oracleStreamSum]

theorem runChunk_waits_list (o : Nat → Attempt) (s e cid mr rc : Nat) :
    (runChunk o s e cid mr rc).waits =
      backoffSchedule rc (runChunk o s e cid mr rc).waits.length := by
  rw [runChunk]
  simp only []
  split
  · simp [backoffSchedule]
  · split
    · have ih := runChunk_waits_list o s e cid mr (rc + 1)
      simp only [List.length_cons, backoffSchedule_succ]
      rw [← ih]
    · simp [backoffSchedule]
termination_by mr - rc
decreasing_by omega

theorem runChunk_counter (o : Nat → Attempt) (s e cid mr rc : Nat) :
    (runChunk o s e cid mr rc).counterDelta =
      oracleStreamSum o rc (runChunk o s e cid mr rc).ranges.length := by
  rw [runChunk]
  simp only []
  split
  · simp [oracleStreamSum, List.range_succ]
  · split
    · have ih := runChunk_counter o s e cid mr (rc + 1)
      simp only [List.length_cons, oracleStreamSum_succ]
      rw [← ih]
    · simp [oracleStreamSum, List.range_succ]
termination_by mr - rc
decreasing_by omega

theorem runChunk_artifact_last (o : Nat → Attempt) (s e cid mr rc : Nat) :
    ∀ n, (runChunk o s e cid mr rc).ranges.length = n →
      (o (rc + n - 1)).opened = true →
      (runChunk o s e cid mr rc).artifact = some ((o (rc + n - 1)).streamed) := by
  rw [runChunk]
  simp only []
  split
  · intro n hn hop
    simp only [List.length_singleton] at hn
    subst hn
    simp only [Nat.add_sub_cancel] at hop ⊢
    simp [hop]
  · split
    · intro n hn hop
      simp only [List.length_cons] at hn
      have hlen := runChunk_len o s e cid mr (rc + 1)
      have hidx : rc + n - 1 = rc + 1 + (runChunk o s e cid mr (rc + 1)).ranges.length - 1 := by
        omega
      rw [hidx] at hop ⊢
      have ih := runChunk_artifact_last o s e cid mr (rc + 1)
        (runChunk o s e cid mr (rc + 1)).ranges.length rfl hop
      rw [ih]
    · intro n hn hop
      simp only [List.length_singleton] at hn
      subst hn
      simp only [Nat.add_sub_cancel] at hop ⊢
      simp [hop]
termination_by mr - rc
decreasing_by omega

/-- C3: every call to the chunk worker makes at most `max_retries + 1` attempts;
every attempt requests exactly the original byte range `[start, end]`; between
failed attempts it sleeps the exponential backoff `min(2 ^ retry_count, 10)`
seconds (doubling, capped at 10); a retried attempt overwrites the partial
artifact (after the run the artifact holds only the final attempt's bytes);
after the budget is exhausted it returns the terminal failure
`(chunk_id, 0, last error)`. -/
theorem C3_retry_backoff_terminal (o : Nat → Attempt) (s e cid mr : Nat) :
    (1 ≤ (runChunk o s e cid mr 0).ranges.length ∧
      (runChunk o s e cid mr 0).ranges.length ≤ mr + 1) ∧
    (∀ p ∈ (runChunk o s e cid mr 0).ranges, p = (s, e)) ∧
    (runChunk o s e cid mr 0).waits =
      backoffSchedule 0 (runChunk o s e cid mr 0).waits.length ∧
    (runChunk o s e cid mr 0).waits.length + 1 = (runChunk o s e cid mr 0).ranges.length ∧
    (∀ n, (runChunk o s e cid mr 0).ranges.length = n →
      (o (n - 1)).opened = true →
      (runChunk o s e cid mr 0).artifact = some ((o (n - 1)).streamed)) ∧
    (∀ msg, (runChunk o s e cid mr 0).result.2.2 = some msg →
      (runChunk o s e cid mr 0).result = (cid, 0, some msg) ∧
      (runChunk o s e cid mr 0).ranges.length = mr + 1 ∧
      attemptOutcome (o mr) (e + 1 - s) = some msg) := by
  have hlen := runChunk_len o s e cid mr 0
  refine ⟨⟨hlen.1, by omega⟩, runChunk_ranges_mem o s e cid mr 0,
    runChunk_waits_list o s e cid mr 0, runChunk_waits_len o s e cid mr 0, ?_, ?_⟩
  · intro n hn hop
    have := runChunk_artifact_last o s e cid mr 0 n hn
    simpa using this (by simpa using hop)
  · intro msg hmsg
    have hfail := runChunk_fail o s e cid mr 0 (Nat.zero_le mr) msg hmsg
    have hid := runChunk_id o s e cid mr 0
    refine ⟨?_, by omega, hfail.2.2.1⟩
    have heta : (runChunk o s e cid mr 0).result =
        ((runChunk o s e cid mr 0).result.1, (runChunk o s e cid mr 0).result.2.1,
          (runChunk o s e cid mr 0).result.2.2) := rfl
    rw [heta, hid, hfail.1, hmsg]

theorem C3_witness :
    (runChunk oracleAllFail 0 99 7 3 0).result.2.2 = some "connection reset" ∧
    (runChunk oracleAllFail 0 99 7 3 0).result = (7, 0, some "connection reset") ∧
    (runChunk oracleAllFail 0 99 7 3 0).ranges.length = 3 + 1 ∧
    attemptOutcome (oracleAllFail 3) (99 + 1 - 0) = some "connection reset" := by
  have h := C3_retry_backoff_terminal oracleAllFail 0 99 7 3
  have hsome : (runChunk oracleAllFail 0 99 7 3 0).result.2.2 = some "connection reset" := by
    simp [runChunk, oracleAllFail, attemptOutcome]
  exact ⟨hsome, h.2.2.2.2.2 "connection reset" hsome⟩

/-- C4: an attempt whose stream ends without an exception is reported
successful iff the bytes written are at least the tolerance fraction (95%)
of the expected length `end - start + 1`; a shortfall beyond the tolerance
makes the worker take the retry path (a further attempt) rather than report
success. -/
theorem C4_tolerance_check (a : Attempt) (expected : Nat) (hstream : a.error = none) :
    (attemptOutcome a expected = none ↔ 19 * expected ≤ 20 * a.streamed) ∧
    (∀ (o : Nat → Attempt) (s e cid mr rc : Nat), rc < mr →
        attemptOutcome (o rc) (e + 1 - s) ≠ none →
        2 ≤ (runChunk o s e cid mr rc).ranges.length) := by
  constructor
  · unfold attemptOutcome
    rw [hstream]
    split_ifs with h
    · simp only [reduceCtorEq, false_iff]
      omega
    · simp only [true_iff]
      omega
  · intro o s e cid mr rc hlt hfail
    rw [runChunk]
    simp only []
    split
    · simp_all
    · rw [if_pos hlt]
      have := runChunk_len o s e cid mr (rc + 1)
      simp only [List.length_cons]
      omega

theorem C4_witness :
    ((Attempt.mk 95 true none).error = none ∧ (0 : Nat) < 3 ∧
      attemptOutcome (oracleRetryThenOk 0) (99 + 1 - 0) ≠ none) ∧
    (attemptOutcome ⟨95, true, none⟩ 100 = none ↔ 19 * 100 ≤ 20 * 95) ∧
    2 ≤ (runChunk oracleRetryThenOk 0 99 0 3 0).ranges.length := by
  have h := C4_tolerance_check ⟨95, true, none⟩ 100 rfl
  refine ⟨⟨rfl, by omega, ?_⟩, h.1, ?_⟩
  · simp [attemptOutcome, oracleRetryThenOk]
  · exact h.2 oracleRetryThenOk 0 99 0 3 0 (by omega)
      (by simp [attemptOutcome, oracleRetryThenOk])

/-- C10: the shared progress counter gains exactly the bytes streamed by
every attempt, including attempts that later fail and are retried, and is
never decremented; consequently in the concrete two-attempt execution
`oracleRetryThenOk` the counter total (190) exceeds both the bytes in the
final artifact (100) and the chunk's total expected size (100). -/
theorem C10_progress_counter (o : Nat → Attempt) (s e cid mr rc : Nat) :
    ((runChunk o s e cid mr rc).counterDelta =
      oracleStreamSum o rc (runChunk o s e cid mr rc).ranges.length) ∧
    ((runChunk oracleRetryThenOk 0 99 0 3 0).counterDelta = 190 ∧
      (runChunk oracleRetryThenOk 0 99 0 3 0).artifact = some 100 ∧
      (99 + 1 - 0) < (runChunk oracleRetryThenOk 0 99 0 3 0).counterDelta) := by
  refine ⟨runChunk_counter o s e cid mr rc, ?_⟩
  have hrun : runChunk oracleRetryThenOk 0 99 0 3 0 =
      { result := (0, 100, none)
        ranges := [(0, 99), (0, 99)]
        waits := [1]
        counterDelta := 190
        artifact := some 100 } := by
    rw [runChunk, runChunk]
    simp [oracleRetryThenOk, attemptOutcome]
  rw [hrun]
  simp

/-- Folding the merge loop: the output is the concatenation, in index order,
of the artifacts that exist. -/
theorem merge_fold (files : Nat → Option (List Nat)) :
    ∀ (l : List Nat) (acc : List Nat),
      l.foldl (fun acc i =>
        match files i with
        | some data => acc ++ data
        | none => acc) acc
      = acc ++ (l.filterMap files).flatten := by
  intro l
  induction l with
  | nil => intro acc; simp
  | cons i l ih =>
      intro acc
      simp only [List.foldl_cons, List.filterMap_cons]
      cases h : files i with
      | none => simpa using ih acc
      | some d => simp [ih, List.append_assoc]

/-- C5 counterexample: merging one expected chunk whose artifact file does
not exist still reports success (`True`), refuting the claim that a missing
artifact is a hard failure. -/
theorem C5_counterexample : (merge_chunks (fun _ => none) 1).1 = true := rfl

/-- C5 (amended): a missing artifact for an expected chunk index is not a
hard failure: the merge loop skips it (with only a printed warning) and the
merge still reports success, its output being the concatenation, in index
order, of just the artifacts that exist. -/
theorem C5_merge_skips_missing (files : Nat → Option (List Nat)) (num_chunks : Nat) :
    (merge_chunks files num_chunks).1 = true ∧
    (merge_chunks files num_chunks).2 = ((List.range num_chunks).filterMap files).flatten := by
  refine ⟨rfl, ?_⟩
  unfold merge_chunks
  simpa using merge_fold files (List.range num_chunks) []

/-- C6: whenever at least one chunk reports a terminal failure, the
orchestrator cleans up the temporary artifacts, never calls the merge step,
and the transfer result is failure. -/
theorem C6_failure_skips_merge (results : List (Nat × Nat × Option String))
    (mergeOk : Bool) (h : ∃ r ∈ results, r.2.2.isSome) :
    finishTransfer results mergeOk =
      { calledMerge := false, calledCleanup := true, success := false } := by
  unfold finishTransfer
  obtain ⟨r, hr, herr⟩ := h
  have hmem : r.1 ∈ (results.filter (fun x => x.2.2.isSome)).map (fun x => x.1) :=
    List.mem_map_of_mem _ (List.mem_filter.mpr ⟨hr, by simpa using herr⟩)
  rw [if_neg]
  intro hEmpty
  rw [List.isEmpty_iff] at hEmpty
  rw [hEmpty] at hmem
  simp at hmem

theorem C6_witness :
    (∃ r ∈ [((0 : Nat), (0 : Nat), some "timeout")], r.2.2.isSome) ∧
    finishTransfer [(0, 0, some "timeout")] true =
      { calledMerge := false, calledCleanup := true, success := false } := by
  have h : ∃ r ∈ [((0 : Nat), (0 : Nat), some "timeout")], r.2.2.isSome := by
    exact ⟨(0, 0, some "timeout"), by simp, rfl⟩
  exact ⟨h, C6_failure_skips_merge [(0, 0, some "timeout")] true h⟩

/-- C7: probing degrades instead of raising: a network error or timeout on
the range-support test yields `false`, and a network error on whichever size
request is actually issued (the first plain request, the `bytes=0-1` request
when the first had no length header, or the final small GET when the second
had no range header) yields size `0`. -/
theorem C7_probe_never_raises :
    (∀ m, test_range_support (.exn m) = false) ∧
    (∀ m o2 o3, get_file_size (.exn m) o2 o3 = 0) ∧
    (∀ s cr ar m o3, get_file_size (.resp s none cr ar) (.exn m) o3 = 0) ∧
    (∀ s cr ar s2 cl2 ar2 m,
      get_file_size (.resp s none cr ar) (.resp s2 cl2 none ar2) (.exn m) = 0) :=
  ⟨fun _ => rfl, fun _ _ _ => rfl, fun _ _ _ _ _ => rfl, fun _ _ _ _ _ _ _ => rfl⟩

/-- C2: above the small-file threshold the planned chunk count equals the
spec's `clamp(min(maxThreads, floor(totalSize / preferredChunkBytes)), 1,
hardCapChunks)` (for any configuration with at least one thread), and in the
concrete example (`totalSize` 10485760, 4 threads, 1 MiB preferred chunk,
10 MiB exclusive threshold) the plan has exactly 4 chunks of 2621440 bytes
each, the last ending at byte 10485759. -/
theorem C2_chunk_count_formula :
    (∀ (cfg : DownloadConfig) (ts : Nat), cfg.small_file_threshold ≤ ts →
      1 ≤ cfg.max_threads →
      calculate_optimal_chunks cfg ts
        = specChunkCount ts cfg.max_threads cfg.chunk_size hardCapChunks) ∧
    calculate_optimal_chunks
      { max_threads := 4, chunk_size := 1048576, small_file_threshold := 10485760 }
      10485760 = 4 ∧
    planDescriptors 10485760 4 =
      [(0, 2621439), (2621440, 5242879), (5242880, 7864319), (7864320, 10485759)] ∧
    (∀ d ∈ planDescriptors 10485760 4, d.2 - d.1 + 1 = 2621440) := by
  refine ⟨?_, by decide, by decide, by decide⟩
  intro cfg ts hts hmt
  unfold calculate_optimal_chunks specChunkCount hardCapChunks
  rw [if_neg (by omega)]
  omega

theorem C2_witness :
    ((10485760 : Nat) ≤ 10485760 ∧ (1 : Nat) ≤ 4) ∧
    calculate_optimal_chunks
      { max_threads := 4, chunk_size := 1048576, small_file_threshold := 10485760 }
      10485760
      = specChunkCount 10485760 4 1048576 hardCapChunks :=
  ⟨⟨le_refl _, by omega⟩,
    C2_chunk_count_formula.1
      { max_threads := 4, chunk_size := 1048576, small_file_threshold := 10485760 }
      10485760 (by decide) (by decide)⟩

/-- C9 counterexample: with discovered size 0 (and estimate 0) the
orchestrator does not build an empty chunk plan and complete trivially: it
falls back to the sequential single-stream download, and the chunk planner
applied to size 0 would return 1 chunk, not 0. -/
theorem C9_counterexample :
    chooseTransferMode {} true 0 0 = TransferMode.fallbackStream ∧
    calculate_optimal_chunks {} 0 = 1 := by
  constructor <;> rfl

/-- C9 (amended): when the discovered total size is 0 and the extractor's
estimate is also 0, the engine never enters the chunked path: it falls back
to the sequential single-stream download; the chunk planner is not invoked
(and, for any configuration with a positive small-file threshold, would
return one chunk, not zero, at size 0). -/
theorem C9_zero_size_falls_back (cfg : DownloadConfig) (rangeSupport : Bool) :
    chooseTransferMode cfg rangeSupport 0 0 = TransferMode.fallbackStream ∧
    (1 ≤ cfg.small_file_threshold → calculate_optimal_chunks cfg 0 = 1) := by
  constructor
  · unfold chooseTransferMode
    rcases cfg.enable_chunked_download with _ | _ <;> rcases rangeSupport with _ | _ <;> simp
  · intro h
    unfold calculate_optimal_chunks
    rw [if_pos (by omega)]

theorem C9_witness :
    (1 : Nat) ≤ (DownloadConfig.mk 8 (2*1024*1024) 3 (10*1024*1024) true).small_file_threshold ∧
    chooseTransferMode (DownloadConfig.mk 8 (2*1024*1024) 3 (10*1024*1024) true) true 0 0
      = TransferMode.fallbackStream ∧
    calculate_optimal_chunks (DownloadConfig.mk 8 (2*1024*1024) 3 (10*1024*1024) true) 0 = 1 := by
  have h := C9_zero_size_falls_back (DownloadConfig.mk 8 (2*1024*1024) 3 (10*1024*1024) true) true
  exact ⟨by norm_num, h.1, h.2 (by norm_num)⟩

theorem planDescriptors_length (ts n : Nat) : (planDescriptors ts n).length = n := by
  simp [planDescriptors]

theorem planDescriptors_get (ts n i : Nat) (hi : i < (planDescriptors ts n).length) :
    (planDescriptors ts n).get ⟨i, hi⟩ =
      (((i * (ts / n) : Nat) : Int),
        if i = n - 1 then (ts : Int) - 1
        else ((i * (ts / n) : Nat) : Int) + ((ts / n : Nat) : Int) - 1) := by
  simp [planDescriptors]

/-- The chunk plan for `n ≥ 1` chunks over `ts ≥ n` bytes is an ordered,
contiguous, non-overlapping partition of `[0, ts - 1]`. -/
theorem planDescriptors_partition (ts n : Nat) (hn : 1 ≤ n) (hnts : n ≤ ts) :
    (∀ i j (hi : i < (planDescriptors ts n).length)
        (hj : j < (planDescriptors ts n).length), i < j →
      ((planDescriptors ts n).get ⟨i, hi⟩).2 < ((planDescriptors ts n).get ⟨j, hj⟩).1) ∧
    (∀ i (hi : i + 1 < (planDescriptors ts n).length)
        (hi' : i < (planDescriptors ts n).length),
      ((planDescriptors ts n).get ⟨i + 1, hi⟩).1
        = ((planDescriptors ts n).get ⟨i, hi'⟩).2 + 1) ∧
    (∀ k : Int, (∃ i, ∃ hi : i < (planDescriptors ts n).length,
        ((planDescriptors ts n).get ⟨i, hi⟩).1 ≤ k ∧
          k ≤ ((planDescriptors ts n).get ⟨i, hi⟩).2)
      ↔ 0 ≤ k ∧ k ≤ (ts : Int) - 1) := by
  have hlen := planDescriptors_length ts n
  have hcs1 : 1 ≤ ts / n := (Nat.le_div_iff_mul_le (by omega)).mpr (by omega)
  have hmul : ts / n * n ≤ ts := Nat.div_mul_le_self ts n
  refine ⟨?_, ?_, ?_⟩
  · intro i j hi hj hij
    have hjn : j < n := by omega
    have hine : i ≠ n - 1 := by omega
    rw [planDescriptors_get ts n i hi, planDescriptors_get ts n j hj]
    simp only [if_neg hine]
    have h1 : i * (ts / n) + ts / n ≤ j * (ts / n) := by
      calc i * (ts / n) + ts / n = (i + 1) * (ts / n) := by ring
        _ ≤ j * (ts / n) := Nat.mul_le_mul_right _ (by omega)
    omega
  · intro i hi hi'
    have hine : i ≠ n - 1 := by omega
    rw [planDescriptors_get ts n (i + 1) hi, planDescriptors_get ts n i hi']
    simp only [if_neg hine]
    have h1 : (i + 1) * (ts / n) = i * (ts / n) + ts / n := by ring
    omega
  · intro k
    constructor
    · rintro ⟨i, hi, hk1, hk2⟩
      rw [planDescriptors_get ts n i hi] at hk1 hk2
      simp only [] at hk1 hk2
      have hin : i < n := by omega
      constructor
      · have : (0 : Int) ≤ ((i * (ts / n) : Nat) : Int) := by positivity
        omega
      · by_cases hie : i = n - 1
        · rw [if_pos hie] at hk2
          omega
        · rw [if_neg hie] at hk2
          have h1 : i * (ts / n) + ts / n ≤ n * (ts / n) := by
            calc i * (ts / n) + ts / n = (i + 1) * (ts / n) := by ring
              _ ≤ n * (ts / n) := Nat.mul_le_mul_right _ (by omega)
          have h2 : n * (ts / n) = ts / n * n := by ring
          omega
    · rintro ⟨hk0, hkts⟩
      have hm : ((k.toNat : Nat) : Int) = k := Int.toNat_of_nonneg hk0
      have hmts : k.toNat < ts := by omega
      have hdm : ts / n * (k.toNat / (ts / n)) + k.toNat % (ts / n) = k.toNat :=
        Nat.div_add_mod k.toNat (ts / n)
      have hmod : k.toNat % (ts / n) < ts / n := Nat.mod_lt _ (by omega)
      by_cases hq : k.toNat / (ts / n) < n - 1
      · refine ⟨k.toNat / (ts / n), by omega, ?_⟩
        rw [planDescriptors_get ts n (k.toNat / (ts / n)) (by omega)]
        simp only [if_neg (by omega : ¬ k.toNat / (ts / n) = n - 1)]
        have hcomm : k.toNat / (ts / n) * (ts / n) = ts / n * (k.toNat / (ts / n)) := by ring
        omega
      · refine ⟨n - 1, by omega, ?_⟩
        rw [planDescriptors_get ts n (n - 1) (by omega)]
        rw [if_pos (show n - 1 = n - 1 from rfl)]
        have h1 : (n - 1) * (ts / n) ≤ k.toNat / (ts / n) * (ts / n) :=
          Nat.mul_le_mul_right _ (by omega)
        have hcomm : k.toNat / (ts / n) * (ts / n) = ts / n * (k.toNat / (ts / n)) := by ring
        omega

/-- C1: for any configuration with a positive small-file threshold, at least
one thread and a positive preferred chunk size, and any total size at or
above the threshold, the chunk plan is ordered by index, contiguous,
non-overlapping, covers exactly `[0, ts - 1]`, and its chunk count lies in
`[1, hardCapChunks]`. -/
theorem C1_plan_partition (cfg : DownloadConfig) (ts : Nat)
    (hthr : 1 ≤ cfg.small_file_threshold) (hts : cfg.small_file_threshold ≤ ts)
    (hmt : 1 ≤ cfg.max_threads) (hpc : 1 ≤ cfg.chunk_size) :
    (1 ≤ calculate_optimal_chunks cfg ts ∧
      calculate_optimal_chunks cfg ts ≤ hardCapChunks) ∧
    (planOf cfg ts).length = calculate_optimal_chunks cfg ts ∧
    (∀ i j (hi : i < (planOf cfg ts).length) (hj : j < (planOf cfg ts).length),
      i < j → ((planOf cfg ts).get ⟨i, hi⟩).2 < ((planOf cfg ts).get ⟨j, hj⟩).1) ∧
    (∀ i (hi : i + 1 < (planOf cfg ts).length) (hi' : i < (planOf cfg ts).length),
      ((planOf cfg ts).get ⟨i + 1, hi⟩).1 = ((planOf cfg ts).get ⟨i, hi'⟩).2 + 1) ∧
    (∀ k : Int, (∃ i, ∃ hi : i < (planOf cfg ts).length,
        ((planOf cfg ts).get ⟨i, hi⟩).1 ≤ k ∧ k ≤ ((planOf cfg ts).get ⟨i, hi⟩).2)
      ↔ 0 ≤ k ∧ k ≤ (ts : Int) - 1) := by
  have hform : calculate_optimal_chunks cfg ts
      = min cfg.max_threads (min (max 1 (ts / cfg.chunk_size)) hardCapChunks) := by
    unfold calculate_optimal_chunks
    rw [if_neg (by omega)]
  have hdiv : ts / cfg.chunk_size ≤ ts := Nat.div_le_self ts cfg.chunk_size
  have hn1 : 1 ≤ calculate_optimal_chunks cfg ts := by
    rw [hform]; unfold hardCapChunks; omega
  have hn16 : calculate_optimal_chunks cfg ts ≤ hardCapChunks := by
    rw [hform]; unfold hardCapChunks; omega
  have hnts : calculate_optimal_chunks cfg ts ≤ ts := by
    rw [hform]; omega
  have hpart := planDescriptors_partition ts (calculate_optimal_chunks cfg ts) hn1 hnts
  exact ⟨⟨hn1, hn16⟩, planDescriptors_length ts _, hpart.1, hpart.2.1, hpart.2.2⟩

theorem C1_witness :
    ((1 : Nat) ≤ ({} : DownloadConfig).small_file_threshold ∧
      ({} : DownloadConfig).small_file_threshold ≤ 10485760 ∧
      (1 : Nat) ≤ ({} : DownloadConfig).max_threads ∧
      (1 : Nat) ≤ ({} : DownloadConfig).chunk_size) ∧
    (1 ≤ calculate_optimal_chunks {} 10485760 ∧
      calculate_optimal_chunks {} 10485760 ≤ hardCapChunks) :=
  ⟨⟨by decide, by decide, by decide, by decide⟩,
    (C1_plan_partition {} 10485760 (by decide) (by decide) (by decide) (by decide)).1⟩


theorem sliceRange_mid (content : List Nat) (a cs : Nat) :
    sliceRange content (a : Int) ((a : Int) + (cs : Int) - 1) = (content.drop a).take cs := by
  unfold sliceRange
  have h1 : ((a : Int)).toNat = a := by omega
  have h2 : (((a : Int) + (cs : Int) - 1) + 1 - (a : Int)).toNat = cs := by omega
  rw [h1, h2]

theorem sliceRange_last (content : List Nat) (m : Nat) (hm : m ≤ content.length) :
    sliceRange content (m : Int) ((content.length : Int) - 1) = content.drop m := by
  unfold sliceRange
  have h1 : ((m : Int)).toNat = m := by omega
  have h2 : (((content.length : Int) - 1) + 1 - (m : Int)).toNat = content.length - m := by
    omega
  rw [h1, h2]
  apply List.take_of_length_le
  simp

theorem splitByPlan_eq (content : List Nat) (n : Nat) :
    splitByPlan content n = (List.range n).map (fun i =>
      sliceRange content ((i * (content.length / n) : Nat) : Int)
        (if i = n - 1 then (content.length : Int) - 1
         else ((i * (content.length / n) : Nat) : Int)
           + ((content.length / n : Nat) : Int) - 1)) := by
  unfold splitByPlan planDescriptors
  rw [List.map_map]
  rfl

theorem splitByPlan_length (content : List Nat) (n : Nat) :
    (splitByPlan content n).length = n := by
  simp [splitByPlan, planDescriptors]

theorem join_slices (content : List Nat) (n : Nat) (hn : 1 ≤ n) :
    ∀ d, d ≤ n - 1 →
      ((List.range' (n - 1 - d) (d + 1)).map (fun i =>
        sliceRange content ((i * (content.length / n) : Nat) : Int)
          (if i = n - 1 then (content.length : Int) - 1
           else ((i * (content.length / n) : Nat) : Int)
             + ((content.length / n : Nat) : Int) - 1))).flatten
      = content.drop ((n - 1 - d) * (content.length / n)) := by
  have hmul : content.length / n * n ≤ content.length := Nat.div_mul_le_self _ n
  intro d
  induction d with
  | zero =>
      intro _
      rw [List.range'_succ]
      simp only [List.range'_zero, List.map_cons, List.map_nil, List.flatten_cons,
        List.flatten_nil, List.append_nil, Nat.sub_zero]
      rw [if_true]
      apply sliceRange_last
      calc (n - 1) * (content.length / n) ≤ n * (content.length / n) :=
            Nat.mul_le_mul_right _ (by omega)
        _ = content.length / n * n := by ring
        _ ≤ content.length := hmul
  | succ d ih =>
      intro hd
      rw [List.range'_succ]
      simp only [List.map_cons, List.flatten_cons]
      rw [if_neg (by omega : ¬ n - 1 - (d + 1) = n - 1)]
      rw [sliceRange_mid]
      have hj1 : n - 1 - (d + 1) + 1 = n - 1 - d := by omega
      rw [hj1, ih (by omega)]
      have harg : (n - 1 - d) * (content.length / n)
          = (n - 1 - (d + 1)) * (content.length / n) + content.length / n := by
        have h : n - 1 - d = (n - 1 - (d + 1)) + 1 := by omega
        rw [h]; ring
      rw [harg]
      exact List.drop_take_append_drop content _ _

theorem splitByPlan_flatten (content : List Nat) (n : Nat) (hn : 1 ≤ n) :
    (splitByPlan content n).flatten = content := by
  rw [splitByPlan_eq]
  have h := join_slices content n hn (n - 1) (le_refl _)
  have h0 : n - 1 - (n - 1) = 0 := by omega
  have h1 : n - 1 + 1 = n := by omega
  rw [h0, h1] at h
  simpa [List.range_eq_range'] using h

theorem range_filterMap_get (α : Type) (l : List α) :
    (List.range l.length).filterMap (fun i => l.get? i) = l := by
  induction l with
  | nil => simp
  | cons a l ih =>
      rw [List.length_cons, List.range_succ_eq_map, List.filterMap_cons, List.filterMap_map]
      have h0 : (a :: l).get? 0 = some a := rfl
      rw [h0]
      have hcomp : ((fun i => (a :: l).get? i) ∘ Nat.succ) = (fun i => l.get? i) := rfl
      rw [hcomp, ih]

/-- C8: splitting a file's bytes into the `n ≥ 1` artifacts of the chunk
plan and merging them in ascending index order reproduces the original
content byte-for-byte, and the merged byte count equals the total size. -/
theorem C8_split_merge_roundtrip (content : List Nat) (n : Nat) (hn : 1 ≤ n) :
    merge_chunks (fun i => (splitByPlan content n).get? i) n = (true, content) ∧
    (merge_chunks (fun i => (splitByPlan content n).get? i) n).2.length
      = content.length := by
  have hlen : (splitByPlan content n).length = n := splitByPlan_length content n
  have hfm : (List.range n).filterMap (fun i => (splitByPlan content n).get? i)
      = splitByPlan content n := by
    have h := range_filterMap_get _ (splitByPlan content n)
    rw [hlen] at h
    exact h
  have hout : merge_chunks (fun i => (splitByPlan content n).get? i) n = (true, content) := by
    unfold merge_chunks
    rw [merge_fold]
    rw [hfm, splitByPlan_flatten content n hn]
    rfl
  exact ⟨hout, by rw [hout]⟩

theorem C8_witness :
    (1 : Nat) ≤ 3 ∧
    merge_chunks (fun i => (splitByPlan [10, 20, 30, 40, 50, 60, 70] 3).get? i) 3
      = (true, [10, 20, 30, 40, 50, 60, 70]) :=
  ⟨by omega, (C8_split_merge_roundtrip [10, 20, 30, 40, 50, 60, 70] 3 (by omega)).1⟩
